import Mathlib

/-!
Verification development for the Vertigo Swift middleware
(vertigo_middleware/common/utils.py and vertigo_middleware/handlers/proxy.py).

The development shallowly embeds the metadata codec (read_metadata /
write_metadata), the trigger registry (set_microcontroller,
delete_microcontroller, clean_microcontroller_dict), and the link / move /
wildcard decision logic of the proxy handler (GET, PUT, MOVE,
_get_object_list), and proves or refutes the specified properties.
-/

namespace Vertigo

/-! ## The xattr slot store

The object file's extended-attribute store, restricted to the slot family of
one metadata key: slot 0 is the unsuffixed key, slot k (k >= 1) is the key
suffixed with the decimal digits of k, exactly as built by the format string
in read_metadata / write_metadata (utils.py lines 43-44 and 77).

A slot read either yields a value or fails the way xattr.getxattr fails:
missing attribute (the ENODATA end-of-data condition the read loop relies
on), ENOTSUP/EOPNOTSUPP, or ENOENT.  The store is finite, modelled as a list
indexed by slot number; slots beyond the end of the list are missing. -/

abbrev Bytes := List Nat

inductive SlotR
  | val (b : Bytes)
  | missing
  | notsup
  | noent
deriving DecidableEq

abbrev Store := List SlotR

/-- Read one slot: xattr.getxattr on the key with suffix i. -/
def getSlot (st : Store) (i : Nat) : SlotR :=
  st.getD i SlotR.missing

/-- Write one slot: xattr.setxattr on the key with suffix i (overwrites an
existing slot, creates a new one otherwise).  The list is padded with missing
slots so that index i exists. -/
def setSlot (st : Store) (i : Nat) (b : Bytes) : Store :=
  (st ++ List.replicate (i + 1 - st.length) SlotR.missing).set i (SlotR.val b)

/-! ## read_metadata (utils.py lines 26-57) -/

/-- Outcome of read_metadata:
`notFound` is the `return False` path, `unsupported` is the raised
DiskFileXattrNotSupported, `gone` is the raised DiskFileNotExist, and
`ok md` is `return pickle.loads(metadata)` carrying the concatenated bytes
(deserialization happens at the caller in this embedding). -/
inductive ReadOutcome
  | notFound
  | unsupported
  | gone
  | ok (md : Bytes)
deriving DecidableEq

/-- The `while True` read loop of read_metadata: starting at slot `key`,
concatenate slot values onto `acc` until a slot read fails, and return the
accumulated bytes together with the failure that stopped the loop.  The loop
terminates because the store is finite; `fuel` is an upper bound on the
number of iterations, always instantiated to st.length + 1, which the loop
can never exhaust (after st.length successful reads the next slot is past
the end of the store and is missing), so the fuel-exhaustion branch is
unreachable. -/
def readAcc (st : Store) : Nat → Nat → Bytes → Bytes × SlotR
  | _, 0, acc => (acc, SlotR.missing)
  | key, fuel + 1, acc =>
    match getSlot st key with
    | SlotR.val b => readAcc st (key + 1) fuel (acc ++ b)
    | e => (acc, e)

/-- read_metadata (utils.py lines 26-57), for one metadata key family.
Faithful to the source's exception handler order: `if metadata == '':
return False` comes first, then the ENOTSUP/EOPNOTSUPP check raising
DiskFileXattrNotSupported, then the ENOENT check raising DiskFileNotExist;
any other errno (the normal ENODATA end-of-slots condition) falls through
to `return pickle.loads(metadata)`. -/
def read_metadata (st : Store) : ReadOutcome :=
  let r := readAcc st 0 (st.length + 1) []
  if r.1 = [] then ReadOutcome.notFound
  else
    match r.2 with
    | SlotR.notsup => ReadOutcome.unsupported
    | SlotR.noent => ReadOutcome.gone
    | _ => ReadOutcome.ok r.1

/-! ## write_metadata (utils.py lines 60-92) -/

/-- The `while metastr` write loop of write_metadata: write
`metastr[:xattr_size]` to slot `key`, continue with `metastr[xattr_size:]`
and `key + 1` until metastr is exhausted.  Slots past the last one written
are left untouched.  The source never calls this with xattr_size = 0 (the
Python loop would not terminate there); this embedding returns the store
unchanged in that never-used case to stay total. -/
def writeChunks (sz : Nat) (st : Store) (metastr : Bytes) (key : Nat) : Store :=
  if h : metastr = [] then st
  else if hsz : sz = 0 then st
  else writeChunks sz (setSlot st key (metastr.take sz)) (metastr.drop sz) (key + 1)
termination_by metastr.length
decreasing_by
  have hlen : 0 < metastr.length := List.length_pos.mpr h
  simp only [List.length_drop]
  omega

/-- write_metadata (utils.py lines 60-92) on the serialized bytes `metastr`
(= pickle.dumps(metadata, PICKLE_PROTOCOL)), default xattr_size 65536. -/
def write_metadata (st : Store) (metastr : Bytes) (sz : Nat := 65536) : Store :=
  writeChunks sz st metastr 0

/-- Number of slots the serialization needs: ceiling of length / sz. -/
def numChunks (sz : Nat) (metastr : Bytes) : Nat :=
  (metastr.length + sz - 1) / sz

theorem numChunks_nil (sz : Nat) : numChunks sz [] = 0 := by
  unfold numChunks
  simp only [List.length_nil, Nat.zero_add]
  rcases Nat.eq_zero_or_pos sz with h | h
  · subst h; rfl
  · exact Nat.div_eq_of_lt (by omega)

theorem numChunks_eq (sz : Nat) (metastr : Bytes) (hsz : 0 < sz)
    (h : metastr ≠ []) : numChunks sz metastr = (metastr.length - 1) / sz + 1 := by
  have hlen : 0 < metastr.length := List.length_pos.mpr h
  unfold numChunks
  have h1 : metastr.length + sz - 1 = (metastr.length - 1) + sz := by omega
  rw [h1, Nat.add_div_right _ hsz]

theorem numChunks_drop (sz : Nat) (metastr : Bytes) (hsz : 0 < sz)
    (h : metastr ≠ []) :
    numChunks sz metastr = numChunks sz (metastr.drop sz) + 1 := by
  have hlen : 0 < metastr.length := List.length_pos.mpr h
  rw [numChunks_eq sz metastr hsz h]
  by_cases hle : metastr.length ≤ sz
  · have hd : metastr.drop sz = [] := List.drop_eq_nil_of_le hle
    rw [hd, numChunks_nil]
    have : (metastr.length - 1) / sz = 0 := Nat.div_eq_of_lt (by omega)
    omega
  · have hd : metastr.drop sz ≠ [] := by
      intro hc
      have := List.drop_eq_nil_iff.mp hc
      omega
    rw [numChunks_eq sz _ hsz hd]
    have hld : (metastr.drop sz).length = metastr.length - sz := List.length_drop _ _
    rw [hld]
    have h2 : metastr.length - 1 = (metastr.length - sz - 1) + sz := by omega
    rw [h2, Nat.add_div_right _ hsz]

theorem getSlot_setSlot (st : Store) (i j : Nat) (b : Bytes) :
    getSlot (setSlot st i b) j = if i = j then SlotR.val b else getSlot st j := by
  unfold getSlot setSlot
  simp only [List.getD_eq_getElem?_getD]
  by_cases hij : i = j
  · subst hij
    have hi : i < (st ++ List.replicate (i + 1 - st.length) SlotR.missing).length := by
      simp only [List.length_append, List.length_replicate]
      omega
    rw [if_pos rfl, List.getElem?_set_eq_of_lt (SlotR.val b) hi]
    rfl
  · rw [if_neg hij, List.getElem?_set_ne hij]
    by_cases hj : j < st.length
    · rw [List.getElem?_append_left hj]
    · rw [List.getElem?_append_right (Nat.le_of_not_lt hj), List.getElem?_replicate,
        List.getElem?_eq_none (Nat.le_of_not_lt hj)]
      split <;> rfl

theorem writeChunks_nil (sz : Nat) (st : Store) (key : Nat) :
    writeChunks sz st [] key = st := by
  rw [writeChunks]
  simp

theorem writeChunks_step (sz : Nat) (hsz : sz ≠ 0) (st : Store) (metastr : Bytes)
    (h : metastr ≠ []) (key : Nat) :
    writeChunks sz st metastr key =
      writeChunks sz (setSlot st key (metastr.take sz)) (metastr.drop sz) (key + 1) := by
  conv_lhs => rw [writeChunks]
  rw [dif_neg h, dif_neg hsz]

/-- Slot contents after the write loop: slots `key` to
`key + numChunks sz metastr - 1` hold the consecutive chunks of `metastr`,
every other slot is untouched. -/
theorem getSlot_writeChunks (sz : Nat) (hsz : 0 < sz) :
    ∀ (n : Nat) (metastr : Bytes), metastr.length ≤ n →
      ∀ (st : Store) (key i : Nat),
      getSlot (writeChunks sz st metastr key) i =
        if key ≤ i ∧ i < key + numChunks sz metastr then
          SlotR.val ((metastr.drop (sz * (i - key))).take sz)
        else getSlot st i := by
  intro n
  induction n with
  | zero =>
    intro metastr hlen st key i
    have h : metastr = [] := List.eq_nil_of_length_eq_zero (Nat.le_zero.mp hlen)
    subst h
    rw [writeChunks_nil, numChunks_nil]
    rw [if_neg (by omega)]
  | succ n ih =>
    intro metastr hlen st key i
    by_cases h : metastr = []
    · subst h
      rw [writeChunks_nil, numChunks_nil]
      rw [if_neg (by omega)]
    · have hlen0 : 0 < metastr.length := List.length_pos.mpr h
      rw [writeChunks_step sz (Nat.pos_iff_ne_zero.mp hsz) st metastr h key]
      rw [ih (metastr.drop sz) (by simp only [List.length_drop]; omega)]
      rw [getSlot_setSlot, numChunks_drop sz metastr hsz h]
      have hnc : 0 < numChunks sz (metastr.drop sz) + 1 := Nat.succ_pos _
      rcases Nat.lt_trichotomy i key with hik | hik | hik
      · rw [if_neg (by omega), if_neg (by omega), if_neg (by omega)]
      · subst hik
        rw [if_neg (by omega), if_pos rfl, if_pos (by omega)]
        simp
      · by_cases hin : i < key + (numChunks sz (metastr.drop sz) + 1)
        · rw [if_pos (by omega), if_pos (by omega)]
          rw [List.drop_drop]
          have harith : sz + sz * (i - (key + 1)) = sz * (i - key) := by
            have hd : i - key = (i - (key + 1)) + 1 := by omega
            rw [hd, Nat.mul_succ]
            exact Nat.add_comm _ _
          rw [harith]
        · rw [if_neg (by omega), if_neg (by omega), if_neg (by omega)]

/-- Specialization to a write_metadata call: the written store holds exactly
chunk i of the serialization in slot i, and leaves other slots as they were. -/
theorem getSlot_write_metadata (st : Store) (metastr : Bytes) (sz : Nat)
    (hsz : 0 < sz) (i : Nat) :
    getSlot (write_metadata st metastr sz) i =
      if i < numChunks sz metastr then
        SlotR.val ((metastr.drop (sz * i)).take sz)
      else getSlot st i := by
  unfold write_metadata
  rw [getSlot_writeChunks sz hsz metastr.length metastr (Nat.le_refl _) st 0 i]
  simp

/-- Length of the store after writing onto a store no longer than the first
slot written: the written slots are exactly 0 .. numChunks - 1. -/
theorem length_writeChunks (sz : Nat) (hsz : 0 < sz) :
    ∀ (n : Nat) (metastr : Bytes), metastr.length ≤ n → metastr ≠ [] →
      ∀ (st : Store) (key : Nat), st.length ≤ key →
      (writeChunks sz st metastr key).length = key + numChunks sz metastr := by
  intro n
  induction n with
  | zero =>
    intro metastr hlen hne
    exact absurd (List.eq_nil_of_length_eq_zero (Nat.le_zero.mp hlen)) hne
  | succ n ih =>
    intro metastr hlen hne st key hkey
    have hlen0 : 0 < metastr.length := List.length_pos.mpr hne
    rw [writeChunks_step sz (Nat.pos_iff_ne_zero.mp hsz) st metastr hne key]
    have hset : (setSlot st key (metastr.take sz)).length = key + 1 := by
      unfold setSlot
      simp only [List.length_set, List.length_append, List.length_replicate]
      omega
    by_cases hd : metastr.drop sz = []
    · rw [hd, writeChunks_nil, hset]
      have hle : metastr.length ≤ sz := List.drop_eq_nil_iff.mp hd
      rw [numChunks_eq sz metastr hsz hne, Nat.div_eq_of_lt (by omega)]
    · rw [ih (metastr.drop sz) (by simp only [List.length_drop]; omega) hd _ (key + 1)
        (by omega)]
      rw [numChunks_drop sz metastr hsz hne]
      omega

theorem readAcc_val (st : Store) (key fuel : Nat) (acc b : Bytes)
    (h : getSlot st key = SlotR.val b) :
    readAcc st key (fuel + 1) acc = readAcc st (key + 1) fuel (acc ++ b) := by
  conv_lhs => unfold readAcc
  rw [h]

theorem readAcc_stop (st : Store) (key fuel : Nat) (acc : Bytes) (e : SlotR)
    (h : getSlot st key = e) (he : ∀ b, e ≠ SlotR.val b) :
    readAcc st key (fuel + 1) acc = (acc, e) := by
  unfold readAcc
  rw [h]
  rcases e with b | _ | _ | _
  · exact absurd rfl (he b)
  all_goals rfl

/-- The read loop over a store whose slots `key`, `key + 1`, ... hold the
values of `chunks` and whose next slot stops the loop with `e`:
it accumulates the concatenation of the chunks and reports `e`. -/
theorem readAcc_spec (st : Store) (e : SlotR) (he : ∀ b, e ≠ SlotR.val b) :
    ∀ (chunks : List Bytes) (key fuel : Nat) (acc : Bytes),
      (∀ i (hi : i < chunks.length), getSlot st (key + i) = SlotR.val (chunks.get ⟨i, hi⟩)) →
      getSlot st (key + chunks.length) = e →
      chunks.length < fuel →
      readAcc st key fuel acc = (acc ++ chunks.flatten, e) := by
  intro chunks
  induction chunks with
  | nil =>
    intro key fuel acc _ hstop hfuel
    cases fuel with
    | zero => omega
    | succ fuel =>
      rw [readAcc_stop st key fuel acc e (by simpa using hstop) he]
      simp
  | cons c cs ihc =>
    intro key fuel acc hval hstop hfuel
    cases fuel with
    | zero => simp at hfuel
    | succ fuel =>
      have h0 : getSlot st key = SlotR.val c := by
        simpa using hval 0 (by simp)
      rw [readAcc_val st key fuel acc c h0]
      rw [ihc (key + 1) fuel (acc ++ c)
        (fun i hi => by
          have h1 := hval (i + 1) (by simp only [List.length_cons]; omega)
          rw [show key + (i + 1) = key + 1 + i by omega] at h1
          simpa using h1)
        (by
          have h2 : key + 1 + cs.length = key + (c :: cs).length := by
            simp only [List.length_cons]
            omega
          rw [h2]
          exact hstop)
        (by simp only [List.length_cons] at hfuel; omega)]
      simp

/-- Concatenating the consecutive sz-sized chunks of a list recovers the list. -/
theorem flatten_chunks (sz : Nat) (hsz : 0 < sz) :
    ∀ (n : Nat) (l : Bytes), l.length ≤ n →
      ((List.range (numChunks sz l)).map
        (fun i => (l.drop (sz * i)).take sz)).flatten = l := by
  intro n
  induction n with
  | zero =>
    intro l hlen
    have h : l = [] := List.eq_nil_of_length_eq_zero (Nat.le_zero.mp hlen)
    subst h
    simp [numChunks_nil]
  | succ n ih =>
    intro l hlen
    by_cases h : l = []
    · subst h
      simp [numChunks_nil]
    · have hlen0 : 0 < l.length := List.length_pos.mpr h
      rw [numChunks_drop sz l hsz h, List.range_succ_eq_map]
      rw [List.map_cons, List.flatten_cons, List.map_map]
      have hmap : ((List.range (numChunks sz (l.drop sz))).map
            ((fun i => (l.drop (sz * i)).take sz) ∘ Nat.succ))
          = (List.range (numChunks sz (l.drop sz))).map
            (fun i => ((l.drop sz).drop (sz * i)).take sz) := by
        apply List.map_congr_left
        intro a _
        simp only [Function.comp_apply]
        rw [List.drop_drop]
        have : sz * Nat.succ a = sz + sz * a := by
          rw [Nat.mul_succ]
          omega
        rw [this]
      rw [hmap, ih (l.drop sz) (by simp only [List.length_drop]; omega)]
      simp

/-- Round trip at the byte level: writing a nonempty serialization onto an
empty attribute store and reading it back returns exactly the bytes written. -/
theorem read_write_metadata (metastr : Bytes) (sz : Nat) (hsz : 0 < sz)
    (hne : metastr ≠ []) :
    read_metadata (write_metadata [] metastr sz) = ReadOutcome.ok metastr := by
  have hcount : 0 < numChunks sz metastr := by
    rw [numChunks_eq sz metastr hsz hne]
    exact Nat.succ_pos _
  have hgs : ∀ i, getSlot (write_metadata [] metastr sz) i =
      if i < numChunks sz metastr then
        SlotR.val ((metastr.drop (sz * i)).take sz)
      else SlotR.missing := by
    intro i
    rw [getSlot_write_metadata [] metastr sz hsz i]
    by_cases h : i < numChunks sz metastr
    · rw [if_pos h, if_pos h]
    · rw [if_neg h, if_neg h]
      unfold getSlot
      simp
  have hlen : (write_metadata [] metastr sz).length = numChunks sz metastr := by
    unfold write_metadata
    have := length_writeChunks sz hsz metastr.length metastr (Nat.le_refl _) hne [] 0
      (by simp)
    omega
  have hra := readAcc_spec (write_metadata [] metastr sz) SlotR.missing
    (fun b hb => by cases hb)
    ((List.range (numChunks sz metastr)).map (fun i => (metastr.drop (sz * i)).take sz))
    0 ((write_metadata [] metastr sz).length + 1) []
    (fun i hi => by
      have hilt : i < numChunks sz metastr := by
        simpa using hi
      rw [Nat.zero_add, hgs i, if_pos hilt]
      have hget : ((List.range (numChunks sz metastr)).map
            (fun j => (metastr.drop (sz * j)).take sz)).get ⟨i, hi⟩
          = (metastr.drop (sz * i)).take sz := by
        simp
      rw [hget])
    (by
      rw [Nat.zero_add]
      have hlc : ((List.range (numChunks sz metastr)).map
          (fun i => (metastr.drop (sz * i)).take sz)).length = numChunks sz metastr := by
        simp
      rw [hlc, hgs (numChunks sz metastr), if_neg (Nat.lt_irrefl _)])
    (by
      rw [hlen]
      simp)
  unfold read_metadata
  rw [hra]
  rw [flatten_chunks sz hsz metastr.length metastr (Nat.le_refl _)]
  simp [hne]

/-- Fuel-indexed twin of writeChunks, used only to evaluate the write loop on
concrete inputs inside the kernel (the well-founded recursion of writeChunks
does not reduce definitionally); writeChunks_eq_fuel ties the two together. -/
def writeChunksFuel : Nat → Nat → Store → Bytes → Nat → Store
  | 0, _, st, _, _ => st
  | fuel + 1, sz, st, metastr, key =>
    if metastr = [] then st
    else if sz = 0 then st
    else writeChunksFuel fuel sz (setSlot st key (metastr.take sz)) (metastr.drop sz) (key + 1)

theorem writeChunks_sz_zero (st : Store) (metastr : Bytes) (key : Nat) :
    writeChunks 0 st metastr key = st := by
  rw [writeChunks]
  simp

theorem writeChunks_eq_fuel :
    ∀ (fuel sz : Nat) (st : Store) (metastr : Bytes) (key : Nat),
      metastr.length ≤ fuel →
      writeChunks sz st metastr key = writeChunksFuel fuel sz st metastr key := by
  intro fuel
  induction fuel with
  | zero =>
    intro sz st metastr key hlen
    have h : metastr = [] := List.eq_nil_of_length_eq_zero (Nat.le_zero.mp hlen)
    subst h
    rw [writeChunks_nil]
    rfl
  | succ fuel ih =>
    intro sz st metastr key hlen
    by_cases h : metastr = []
    · subst h
      rw [writeChunks_nil]
      rfl
    · by_cases hsz : sz = 0
      · subst hsz
        rw [writeChunks_sz_zero]
        unfold writeChunksFuel
        rw [if_neg h, if_pos rfl]
      · rw [writeChunks_step sz hsz st metastr h key]
        unfold writeChunksFuel
        rw [if_neg h, if_neg hsz]
        have hlen0 : 0 < metastr.length := List.length_pos.mpr h
        exact ih sz _ _ (key + 1) (by simp only [List.length_drop]; omega)

/-- C1: the claim states that write_metadata removes previously-existing
slots beyond the count needed by the new serialization.  The source
(utils.py lines 60-92) only overwrites slots 0 .. n-1 and never touches the
slots after them, so a stale trailing slot of a larger earlier write stays
readable and corrupts the next read.  Failing input, with xattr_size 2:
first write serialization [1, 2, 3] (needs 2 slots), then write [9]
(needs 1 slot).  Slot 1 still holds the stale chunk [3] even though
1 >= 1, and the subsequent read returns [9, 3] instead of [9]. -/
theorem write_metadata_stale_slot :
    getSlot (write_metadata (write_metadata [] [1, 2, 3] 2) [9] 2) 1 = SlotR.val [3] ∧
    read_metadata (write_metadata (write_metadata [] [1, 2, 3] 2) [9] 2)
      = ReadOutcome.ok [9, 3] ∧
    ReadOutcome.ok [9, 3] ≠ ReadOutcome.ok [9] := by
  have e1 : write_metadata [] [1, 2, 3] 2 = writeChunksFuel 3 2 [] [1, 2, 3] 0 :=
    writeChunks_eq_fuel 3 2 [] [1, 2, 3] 0 (by decide)
  have e2 : write_metadata (write_metadata [] [1, 2, 3] 2) [9] 2
      = writeChunksFuel 1 2 (writeChunksFuel 3 2 [] [1, 2, 3] 0) [9] 0 := by
    rw [write_metadata, writeChunks_eq_fuel 1 2 _ [9] 0 (by decide), e1]
  rw [e2]
  decide

/-- C2: write-then-read round trip at the level of metadata mappings.
The mapping type and its serialization are those of the external pickle
library (PICKLE_PROTOCOL = 2), modelled by any encode/decode pair
satisfying the two properties pickle protocol 2 guarantees: decoding
inverts encoding, and the encoding of a mapping is never the empty byte
string (a protocol-2 pickle always starts with the two framing bytes
0x80 0x02, which also means the sizes 0 and 1 named by the claim cannot
occur as serialized forms and hold vacuously).  Writing the serialization
of any mapping to an object file with no previous slots and reading it
back under the same key yields bytes that decode to an equal mapping. -/
theorem metadata_write_read_roundtrip {M : Type} (dumps : M → Bytes)
    (loads : Bytes → Option M) (m : M)
    (hinv : loads (dumps m) = some m) (hne : dumps m ≠ []) :
    ∃ bs, read_metadata (write_metadata [] (dumps m) 65536) = ReadOutcome.ok bs ∧
      loads bs = some m :=
  ⟨dumps m, read_write_metadata (dumps m) 65536 (by norm_num) hne, hinv⟩

theorem metadata_write_read_roundtrip_witness :
    ∃ bs, read_metadata (write_metadata [] (List.replicate 3 7) 65536) = ReadOutcome.ok bs ∧
      (if bs.length = 0 then none else some (bs.length - 1)) = some 2 :=
  metadata_write_read_roundtrip (fun n => List.replicate (n + 1) 7)
    (fun bs => if bs.length = 0 then none else some (bs.length - 1)) 2
    (by decide) (by decide)

/-- C6 counterexample: when the attribute store signals ENOTSUP on the very
first slot read (zero bytes read so far), read_metadata returns the
not-found result False instead of raising DiskFileXattrNotSupported,
because the source checks `metadata == ''` before inspecting the errno
(utils.py lines 46-54). -/
theorem read_metadata_notsup_zero_bytes :
    read_metadata [SlotR.notsup] = ReadOutcome.notFound ∧
    ReadOutcome.notFound ≠ ReadOutcome.unsupported := by
  decide

/-- C6 amended: read_metadata raises DiskFileXattrNotSupported when the
store signals ENOTSUP/EOPNOTSUPP, provided at least one byte had been read
before the error; when zero bytes had been read it returns the not-found
result instead. -/
theorem read_metadata_notsup (chunks : List Bytes) (rest : Store) :
    (chunks.flatten ≠ [] →
      read_metadata (chunks.map SlotR.val ++ SlotR.notsup :: rest)
        = ReadOutcome.unsupported) ∧
    (chunks.flatten = [] →
      read_metadata (chunks.map SlotR.val ++ SlotR.notsup :: rest)
        = ReadOutcome.notFound) := by
  have hra := readAcc_spec (chunks.map SlotR.val ++ SlotR.notsup :: rest) SlotR.notsup
    (fun b hb => by cases hb) chunks 0
    ((chunks.map SlotR.val ++ SlotR.notsup :: rest).length + 1) []
    (fun i hi => by
      rw [Nat.zero_add]
      unfold getSlot
      rw [List.getD_eq_getElem?_getD,
        List.getElem?_append_left (by simpa using hi), List.getElem?_map,
        List.getElem?_eq_getElem hi]
      rfl)
    (by
      rw [Nat.zero_add]
      unfold getSlot
      rw [List.getD_eq_getElem?_getD, List.getElem?_append_right (by simp)]
      simp)
    (by
      simp only [List.length_append, List.length_map, List.length_cons]
      omega)
  constructor
  · intro hne
    unfold read_metadata
    rw [hra]
    simp [hne]
  · intro hemp
    unfold read_metadata
    rw [hra]
    simp [hemp]

theorem read_metadata_notsup_witness :
    read_metadata [SlotR.val [7], SlotR.notsup] = ReadOutcome.unsupported ∧
    read_metadata [SlotR.notsup] = ReadOutcome.notFound := by
  constructor
  · exact (read_metadata_notsup [[7]] []).1 (by decide)
  · exact (read_metadata_notsup [] []).2 rfl

/-- C9: a 200000-byte serialization with the default 65536-byte slot
ceiling is written as exactly 4 slots, slot k holding bytes
[65536 k, 65536 (k + 1)) of the serialization, of sizes 65536, 65536,
65536 and 3392; reading back returns the original serialization whole. -/
theorem write_metadata_200000 (metastr : Bytes) (h : metastr.length = 200000) :
    getSlot (write_metadata [] metastr 65536) 0 = SlotR.val (metastr.take 65536) ∧
    getSlot (write_metadata [] metastr 65536) 1
      = SlotR.val ((metastr.drop 65536).take 65536) ∧
    getSlot (write_metadata [] metastr 65536) 2
      = SlotR.val ((metastr.drop 131072).take 65536) ∧
    getSlot (write_metadata [] metastr 65536) 3
      = SlotR.val ((metastr.drop 196608).take 65536) ∧
    (write_metadata [] metastr 65536).length = 4 ∧
    getSlot (write_metadata [] metastr 65536) 4 = SlotR.missing ∧
    (metastr.take 65536).length = 65536 ∧
    ((metastr.drop 65536).take 65536).length = 65536 ∧
    ((metastr.drop 131072).take 65536).length = 65536 ∧
    ((metastr.drop 196608).take 65536).length = 3392 ∧
    read_metadata (write_metadata [] metastr 65536) = ReadOutcome.ok metastr := by
  have hne : metastr ≠ [] := by
    intro hc
    rw [hc] at h
    simp at h
  have hnc : numChunks 65536 metastr = 4 := by
    unfold numChunks
    rw [h]
  have hgs := getSlot_write_metadata [] metastr 65536 (by norm_num)
  refine ⟨?_, ?_, ?_, ?_, ?_, ?_, ?_, ?_, ?_, ?_, ?_⟩
  · rw [hgs 0, hnc, if_pos (by omega), show 65536 * 0 = 0 from rfl, List.drop_zero]
  · rw [hgs 1, hnc, if_pos (by omega)]
  · rw [hgs 2, hnc, if_pos (by omega)]
  · rw [hgs 3, hnc, if_pos (by omega)]
  · rw [write_metadata]
    rw [length_writeChunks 65536 (by norm_num) metastr.length metastr (Nat.le_refl _)
      hne [] 0 (by simp)]
    rw [hnc]
  · rw [hgs 4, hnc, if_neg (by omega)]
    unfold getSlot
    simp
  · rw [List.length_take, h]
    omega
  · rw [List.length_take, List.length_drop, h]
    omega
  · rw [List.length_take, List.length_drop, h]
    omega
  · rw [List.length_take, List.length_drop, h]
    omega
  · exact read_write_metadata metastr 65536 (by norm_num) hne

theorem write_metadata_200000_witness :
    read_metadata (write_metadata [] (List.replicate 200000 0) 65536)
      = ReadOutcome.ok (List.replicate 200000 0) :=
  (write_metadata_200000 (List.replicate 200000 0)
    (List.length_replicate 200000 0)).2.2.2.2.2.2.2.2.2.2

/-! ## The trigger registry (utils.py lines 253-409)

The trigger map DEFAULT_MD_STRING has exactly the four keys onget, onput,
ondelete, ontimer (utils.py lines 20-23); every trigger map handled by the
registry is created from this default, so the map is embedded as a
four-field structure.  The swift metadata mapping of an object is embedded
as the value stored under VERTIGO_MC_HEADER (a trigger map, if present)
together with the remaining entries as an association list with unique
keys, insertion ordered, mirroring the Python dict. -/

/-- Python str.startswith, implemented over the underlying character
list. -/
def strStartsWith (p s : String) : Bool :=
  p.data.isPrefixOf s.data

/-- Python membership test c in s for a single character, implemented over
the underlying character list. -/
def strHasChar (s : String) (c : Char) : Bool :=
  s.data.contains c

def SYSMETA_HEADER : String := "X-Object-Sysmeta-Vertigo-"

def VERTIGO_MC_HEADER : String := SYSMETA_HEADER ++ "Microcontroller"

inductive Trigger
  | onget
  | onput
  | ondelete
  | ontimer
deriving DecidableEq

def Trigger.name : Trigger → String
  | Trigger.onget => "onget"
  | Trigger.onput => "onput"
  | Trigger.ondelete => "ondelete"
  | Trigger.ontimer => "ontimer"

/-- Indexing metadata[VERTIGO_MC_HEADER][trigger] with a trigger given as a
string raises KeyError unless the string is one of the four keys; the
failure is modelled by the none result. -/
def parseTrigger (s : String) : Option Trigger :=
  if s = "onget" then some Trigger.onget
  else if s = "onput" then some Trigger.onput
  else if s = "ondelete" then some Trigger.ondelete
  else if s = "ontimer" then some Trigger.ontimer
  else none

/-- The four-key trigger map; each value is None or a list of handler
names. -/
structure MCDict where
  onget : Option (List String)
  onput : Option (List String)
  ondelete : Option (List String)
  ontimer : Option (List String)
deriving DecidableEq

def MCDict.get (d : MCDict) : Trigger → Option (List String)
  | Trigger.onget => d.onget
  | Trigger.onput => d.onput
  | Trigger.ondelete => d.ondelete
  | Trigger.ontimer => d.ontimer

def MCDict.set (d : MCDict) (t : Trigger) (v : Option (List String)) : MCDict :=
  match t with
  | Trigger.onget => { d with onget := v }
  | Trigger.onput => { d with onput := v }
  | Trigger.ondelete => { d with ondelete := v }
  | Trigger.ontimer => { d with ontimer := v }

/-- DEFAULT_MD_STRING (utils.py lines 20-23). -/
def DEFAULT_MD_STRING : MCDict :=
  { onget := none, onput := none, ondelete := none, ontimer := none }

def MCDict.allNone (d : MCDict) : Bool :=
  d.onget.isNone && d.onput.isNone && d.ondelete.isNone && d.ontimer.isNone

/-- The swift metadata mapping of one object: the trigger-map entry under
VERTIGO_MC_HEADER, if present, plus all other entries (the per-binding
configuration blobs under SYSMETA_HEADER + trigger + "-" + mc, and any
unrelated swift metadata). -/
structure Metadata where
  mc : Option MCDict
  entries : List (String × String)
deriving DecidableEq

/-- Python dict assignment metadata[k] = v on the association list. -/
def entriesSet (es : List (String × String)) (k v : String) : List (String × String) :=
  if es.any (fun e => e.1 == k) then
    es.map (fun e => if e.1 = k then (k, v) else e)
  else es ++ [(k, v)]

/-- Python dict deletion del metadata[k]; a no-op when the key is absent
(the source always guards the deletion with an `in` check). -/
def entriesDel (es : List (String × String)) (k : String) : List (String × String) :=
  es.filter (fun e => e.1 != k)

/-- The per-binding configuration key SYSMETA_HEADER + trigger + "-" + mc
(utils.py lines 287 and 349). -/
def sysKey (trigger mc : String) : String :=
  SYSMETA_HEADER ++ trigger ++ "-" ++ mc

/-- get_microcontroller_dict (utils.py lines 371-389), as a function of the
object's metadata.  The eval branch for a textually encoded map cannot
arise in this embedding because the metadata value under VERTIGO_MC_HEADER
is typed as a structured trigger map. -/
def get_microcontroller_dict (md : Metadata) : Option MCDict :=
  md.mc

/-- The handler list of one trigger as seen through
get_microcontroller_dict: empty when no trigger map is stored or the
trigger's value is None. -/
def triggerList (md : Metadata) (t : Trigger) : List String :=
  match get_microcontroller_dict md with
  | none => []
  | some d => (d.get t).getD []

/-- set_microcontroller (utils.py lines 253-297), as a function of the
object's metadata.  `specific_md` is request.body.rstrip().  The source
loads the trigger map (defaulting to DEFAULT_MD_STRING), initializes the
trigger's list if falsy, appends mc only if not already present, stores
the map under VERTIGO_MC_HEADER, and stores specific_md under the
per-binding key when nonempty, deleting any stale per-binding entry
otherwise.  (The source aliases the module-level DEFAULT_MD_STRING dict
instead of copying it; the map contents produced are the same.) -/
def set_microcontroller (md : Metadata) (t : Trigger) (mc : String)
    (specific_md : String) : Metadata :=
  let mc_dict := (get_microcontroller_dict md).getD DEFAULT_MD_STRING
  let cur := (mc_dict.get t).getD []
  let newList := if mc ∈ cur then cur else cur ++ [mc]
  let mc_dict1 := mc_dict.set t (some newList)
  let key := sysKey t.name mc
  if specific_md ≠ "" then
    { mc := some mc_dict1, entries := entriesSet md.entries key specific_md }
  else
    { mc := some mc_dict1, entries := entriesDel md.entries key }

/-- clean_microcontroller_dict (utils.py lines 300-316): every falsy trigger
value (None or the empty list) becomes None; if all four values are None
the VERTIGO_MC_HEADER entry is deleted.  Only called on metadata holding a
trigger map (otherwise the source raises KeyError inside the caller's
try block). -/
def cleanVal (v : Option (List String)) : Option (List String) :=
  match v with
  | some (x :: xs) => some (x :: xs)
  | _ => none

def clean_microcontroller_dict (md : Metadata) : Metadata :=
  match md.mc with
  | none => md
  | some d =>
    let d1 : MCDict :=
      { onget := cleanVal d.onget, onput := cleanVal d.onput,
        ondelete := cleanVal d.ondelete, ontimer := cleanVal d.ontimer }
    if d1.allNone then { md with mc := none }
    else { md with mc := some d1 }

/-- delete_microcontroller (utils.py lines 319-368), as a function of the
object's metadata.  The result is `some md1` when the source reaches
set_swift_metadata(data_file, md1) at line 362, and `none` when the inner
try block raises before reaching it (KeyError on a missing trigger map or
unknown trigger key, TypeError when the trigger's list is None, or the bare
`raise` on an absent handler or falsy trigger map), which the source turns
into a ValueError without writing anything. -/
def delete_microcontroller (md : Metadata) (trigger mc : String) : Option Metadata :=
  if trigger = "vertigo" ∧ mc = "all" then
    some { mc := none,
           entries := md.entries.filter (fun e => ! strStartsWith SYSMETA_HEADER e.1) }
  else
    match md.mc with
    | none => none
    | some d =>
      match parseTrigger trigger with
      | none => none
      | some t =>
        if mc = "all" then
          match d.get t with
          | none => none
          | some mcList =>
            let d1 := d.set t none
            let es1 := mcList.foldl (fun es m => entriesDel es (sysKey trigger m))
              md.entries
            some (clean_microcontroller_dict { mc := some d1, entries := es1 })
        else
          match d.get t with
          | none => none
          | some l =>
            if mc ∈ l then
              let d1 := d.set t (some (l.erase mc))
              let es1 := entriesDel md.entries (sysKey trigger mc)
              some (clean_microcontroller_dict { mc := some d1, entries := es1 })
            else none

/-- The sequence of metadata values passed to set_swift_metadata during one
delete_microcontroller call: the source calls set_swift_metadata exactly
once, at line 362, after all mutations, and never on the exception paths. -/
def delete_set_swift_calls (md : Metadata) (trigger mc : String) : List Metadata :=
  match delete_microcontroller md trigger mc with
  | some m => [m]
  | none => []

/-- Persisted-metadata cleanliness: no trigger maps to the empty list, and
a trigger map all of whose values are None is not present at all. -/
def persisted_clean (md : Metadata) : Bool :=
  match md.mc with
  | none => true
  | some d =>
    decide (d.onget ≠ some []) && decide (d.onput ≠ some []) &&
    decide (d.ondelete ≠ some []) && decide (d.ontimer ≠ some []) &&
    ! d.allNone

theorem cleanVal_ne_some_nil (v : Option (List String)) : cleanVal v ≠ some [] := by
  match v with
  | none => simp [cleanVal]
  | some [] => simp [cleanVal]
  | some (x :: xs) => simp [cleanVal]

theorem persisted_clean_clean (d : MCDict) (es : List (String × String)) :
    persisted_clean (clean_microcontroller_dict { mc := some d, entries := es }) = true := by
  unfold clean_microcontroller_dict
  by_cases h : MCDict.allNone
      { onget := cleanVal d.onget, onput := cleanVal d.onput,
        ondelete := cleanVal d.ondelete, ontimer := cleanVal d.ontimer } = true
  · simp only [h]
    rfl
  · simp only [h]
    unfold persisted_clean
    simp only [Bool.not_eq_true] at h
    simp [cleanVal_ne_some_nil, h]

/-- C5: whenever delete_microcontroller persists a mutation (reaches
set_swift_metadata), the persisted metadata stores None for every trigger
whose list became empty and drops the VERTIGO_MC_HEADER entry entirely
when all four trigger values are None. -/
theorem delete_microcontroller_persists_clean (md : Metadata) (trigger mc : String)
    (md1 : Metadata) (h : delete_microcontroller md trigger mc = some md1) :
    persisted_clean md1 = true := by
  unfold delete_microcontroller at h
  split at h
  · simp only [Option.some.injEq] at h
    subst h
    rfl
  · split at h
    · simp at h
    · split at h
      · simp at h
      · split at h
        · split at h
          · simp at h
          · simp only [Option.some.injEq] at h
            subst h
            exact persisted_clean_clean _ _
        · split at h
          · simp at h
          · split at h
            · simp only [Option.some.injEq] at h
              subst h
              exact persisted_clean_clean _ _
            · simp at h

theorem delete_microcontroller_persists_clean_witness :
    persisted_clean { mc := none, entries := [] } = true :=
  delete_microcontroller_persists_clean
    { mc := some { onget := some ["x"], onput := none, ondelete := none, ontimer := none },
      entries := [] }
    "onget" "x" { mc := none, entries := [] } (by decide)

/-- C10: every failure of delete_microcontroller caused by an absent
handler, a None trigger list, or a missing trigger map leaves the object's
metadata untouched: set_swift_metadata is never invoked. -/
theorem delete_microcontroller_failure_no_write (md : Metadata) (trigger mc : String)
    (hva : ¬ (trigger = "vertigo" ∧ mc = "all"))
    (hfail : md.mc = none
      ∨ (∃ d t, md.mc = some d ∧ parseTrigger trigger = some t ∧ d.get t = none)
      ∨ (∃ d t l, md.mc = some d ∧ parseTrigger trigger = some t ∧ d.get t = some l ∧
          mc ≠ "all" ∧ mc ∉ l)) :
    delete_set_swift_calls md trigger mc = [] := by
  unfold delete_set_swift_calls delete_microcontroller
  rw [if_neg hva]
  rcases hfail with hmc | ⟨d, t, hmc, hpt, hgt⟩ | ⟨d, t, l, hmc, hpt, hgt, hnall, hnmem⟩
  · simp only [hmc]
  · simp only [hmc, hpt]
    by_cases hall : mc = "all"
    · simp only [if_pos hall, hgt]
    · simp only [if_neg hall, hgt]
  · simp only [hmc, hpt, if_neg hnall, hgt, if_neg hnmem]

theorem delete_microcontroller_failure_no_write_witness :
    delete_set_swift_calls { mc := none, entries := [] } "onget" "x" = [] :=
  delete_microcontroller_failure_no_write { mc := none, entries := [] } "onget" "x"
    (by decide) (Or.inl rfl)

/-- C4: adding the same (trigger, handler) binding twice leaves the handler
exactly once in that trigger's list.  The hypothesis is the trigger-map
invariant that a handler appears at most once per trigger in the starting
state (any state the registry itself produced satisfies it, in particular
the empty one). -/
theorem set_microcontroller_idempotent (md : Metadata) (t : Trigger) (mc : String)
    (b1 b2 : String) (h : List.count mc (triggerList md t) ≤ 1) :
    List.count mc
      (triggerList (set_microcontroller (set_microcontroller md t mc b1) t mc b2) t)
      = 1 := by
  have htl : ∀ (md1 : Metadata) (b : String),
      triggerList (set_microcontroller md1 t mc b) t =
        (if mc ∈ ((((get_microcontroller_dict md1).getD DEFAULT_MD_STRING).get t).getD [])
         then ((((get_microcontroller_dict md1).getD DEFAULT_MD_STRING).get t).getD [])
         else ((((get_microcontroller_dict md1).getD DEFAULT_MD_STRING).get t).getD []) ++ [mc]) := by
    intro md1 b
    unfold triggerList set_microcontroller get_microcontroller_dict
    by_cases hb : b ≠ ""
    · rw [if_pos hb]
      simp only
      cases t <;> rfl
    · rw [if_neg hb]
      simp only
      cases t <;> rfl
  set cur := (((get_microcontroller_dict md).getD DEFAULT_MD_STRING).get t).getD []
    with hcur
  have h1 : triggerList (set_microcontroller md t mc b1) t =
      (if mc ∈ cur then cur else cur ++ [mc]) := htl md b1
  have hcount : List.count mc (triggerList md t) = List.count mc cur := by
    unfold triggerList
    rw [hcur]
    match hmd : get_microcontroller_dict md with
    | none => simp [DEFAULT_MD_STRING]; cases t <;> simp [MCDict.get]
    | some d => simp
  rw [hcount] at h
  have h2 := htl (set_microcontroller md t mc b1) b2
  have hmid : (((get_microcontroller_dict (set_microcontroller md t mc b1)).getD
      DEFAULT_MD_STRING).get t).getD [] = (if mc ∈ cur then cur else cur ++ [mc]) := by
    have := h1
    unfold triggerList at this
    match hmd : get_microcontroller_dict (set_microcontroller md t mc b1) with
    | none =>
      exfalso
      unfold set_microcontroller get_microcontroller_dict at hmd
      by_cases hb : b1 ≠ ""
      · rw [if_pos hb] at hmd; cases hmd
      · rw [if_neg hb] at hmd; cases hmd
    | some d =>
      rw [hmd] at this
      simpa using this
  rw [h2, hmid]
  by_cases hmem : mc ∈ cur
  · have hpos : 1 ≤ List.count mc cur := List.one_le_count_iff.mpr hmem
    have hc1 : List.count mc cur = 1 := Nat.le_antisymm h hpos
    rw [if_pos hmem, if_pos hmem]
    exact hc1
  · have hc0 : List.count mc cur = 0 := List.count_eq_zero.mpr hmem
    rw [if_neg hmem]
    have hmem2 : mc ∈ cur ++ [mc] := by simp
    rw [if_pos hmem2]
    rw [List.count_append, hc0]
    simp

theorem set_microcontroller_idempotent_witness :
    List.count "noop"
      (triggerList
        (set_microcontroller
          (set_microcontroller { mc := none, entries := [] } Trigger.onget "noop" "")
          Trigger.onget "noop" "")
        Trigger.onget) = 1 :=
  set_microcontroller_idempotent { mc := none, entries := [] } Trigger.onget "noop"
    "" "" (by decide)

/-! ## The proxy handler (handlers/proxy.py)

The decision logic of VertigoProxyHandler for the claims about links, moves
and wildcard expansion.  External collaborators (the storage backend behind
self.app, the memcache client) are passed in as functions; a backend GET of
an object returns the content type, link-destination sysmeta and body the
object stores. -/

/-- Python os.path.join for two path segments: the second segment replaces
everything when absolute, otherwise the segments are joined with a
slash. -/
def joinPath (a b : String) : String :=
  if b.data.head? = some '/' then b else a ++ "/" ++ b

/-- The response data the GET path inspects: Content-Type header, the
X-Object-Sysmeta-Vertigo-Link-to header if present, and the body. -/
structure Resp where
  contentType : String
  linkTo : Option String
  body : String
deriving DecidableEq

/-- The content-type value the GET handler (proxy.py line 219), the PUT and
MOVE handlers (lines 258 and 318) and the trigger-request processor
(line 180) compare against to recognize a link object. -/
def vertigo_link_marker : String := "vertigo/link"

/-- The content-type value create_link writes (utils.py line 193). -/
def create_link_content_type : String := "Vertigo-Link"

/-- The zero-length PUT sub-request issued by create_link
(utils.py lines 169-198). -/
structure LinkPutReq where
  path : String
  contentLength : Nat
  contentType : String
  linkDest : String
deriving DecidableEq

def create_link (link_path dest_path : String) : LinkPutReq :=
  { path := link_path, contentLength := 0,
    contentType := create_link_content_type, linkDest := dest_path }

/-- The object state stored by a successful create_link PUT, as later
returned by a GET or HEAD of the link object: the stored content type, the
recorded destination, and the zero-length body. -/
def link_object_resp (dest_path : String) : Resp :=
  { contentType := create_link_content_type, linkTo := some dest_path, body := "" }

/-- VertigoProxyHandler.GET (proxy.py lines 206-238): check the cache for
account/container/obj, else forward to the backend; if the response's
content type equals the link marker, read the link destination and repeat
(cache first, then backend) for account/dest once.  Returns the final
response and the list of object keys fetched from the backend.  The
storlet-execution branch and the Content-Length/Transfer-Encoding header
rewrite only transform headers of the already-chosen response and are
outside this fragment; a link object stores its destination, so the
KeyError the source would raise on a marker response without the
Link-to header is modelled by returning that response unchanged. -/
def GET_handler (account container obj : String)
    (cache : String → Option Resp) (backend : String → Resp) :
    Resp × List String :=
  let objKey := joinPath (joinPath account container) obj
  let first : Resp × List String :=
    match cache objKey with
    | some r => (r, [])
    | none => (backend objKey, [objKey])
  if first.1.contentType = vertigo_link_marker then
    match first.1.linkTo with
    | some dest_obj =>
      let destKey := joinPath account dest_obj
      (match cache destKey with
       | some r => (r, first.2)
       | none => (backend destKey, first.2 ++ [destKey]))
    | none => first
  else first

/-- The backend of the C3 scenario: the link object created by
create_link("cont/linkname" -> "contB/real") and a real object at
contB/real whose body is "REALDATA". -/
def linkScenarioBackend : String → Resp := fun p =>
  if p = "acct/cont/linkname" then link_object_resp "contB/real"
  else { contentType := "application/octet-stream", linkTo := none, body := "REALDATA" }

/-- C3: the content-type marker create_link writes ("Vertigo-Link",
utils.py line 193) is NOT the marker the GET handler tests for
("vertigo/link", proxy.py line 219), so a GET of a link object created by
create_link is never redirected: it returns the zero-length link
placeholder itself, fetches only the link object, and issues zero requests
to the destination, contradicting the claimed link transparency. -/
theorem create_link_marker_not_recognized :
    (create_link "cont/linkname" "contB/real").contentType ≠ vertigo_link_marker ∧
    GET_handler "acct" "cont" "linkname" (fun _ => none) linkScenarioBackend
      = (link_object_resp "contB/real", ["acct/cont/linkname"]) ∧
    (link_object_resp "contB/real").body ≠ (linkScenarioBackend "acct/contB/real").body := by
  decide

/-- A mutating sub-request issued by the move / link-creation flow. -/
inductive WriteReq
  | copy (src dest : String)
  | putLink (linkPath destPath : String)
deriving DecidableEq

/-- The headers of the _verify_access HEAD response the move branches
inspect. -/
structure RespHeaders where
  contentType : String
  linkTo : Option String
deriving DecidableEq

/-- Outcome of _verify_access: the response headers on success, or the
HTTPUnauthorized / HTTPNotFound it raises. -/
inductive VerifyResult
  | ok (h : RespHeaders)
  | unauthorized
  | notFound
deriving DecidableEq

inductive MoveOutcome
  | conflict (body : String) (etag : String)
  | unauthorizedErr
  | notFoundErr
  | copyFailed
  | linkCreated (req : LinkPutReq)
  | typeErr
deriving DecidableEq

/-- The message of the MOVE same-path response (proxy.py lines 324-325;
the two implicitly concatenated source strings have no space between
"path" and "are"). -/
def moveConflictBody : String :=
  "Vertigo - Error: Link path and destination pathare the same.\n"

/-- The message of the PUT move-branch same-path response
(proxy.py lines 265-266). -/
def putConflictBody : String :=
  "Vertigo - Error: Link path and destination path cannot be the same.\n"

/-- VertigoProxyHandler.MOVE (proxy.py lines 307-328): if the joined
container/object path differs from the Destination header, verify access
(its failure propagates with no write), COPY to the destination unless the
source is already a link (by Link-to header or content-type marker), and on
success PUT the link; if the paths are equal, answer with the error body
and the empty etag marker and issue no sub-request.  `copyOk` is the
success of the backend COPY.  Returns the outcome and every mutating
sub-request issued. -/
def MOVE_handler (container obj dest : String) (verify : VerifyResult)
    (copyOk : Bool) : MoveOutcome × List WriteReq :=
  let link_path := joinPath container obj
  if link_path ≠ dest then
    match verify with
    | VerifyResult.unauthorized => (MoveOutcome.unauthorizedErr, [])
    | VerifyResult.notFound => (MoveOutcome.notFoundErr, [])
    | VerifyResult.ok h =>
      if h.linkTo = none ∧ h.contentType ≠ vertigo_link_marker then
        if copyOk then
          (MoveOutcome.linkCreated (create_link link_path dest),
           [WriteReq.copy link_path dest, WriteReq.putLink link_path dest])
        else (MoveOutcome.copyFailed, [WriteReq.copy link_path dest])
      else
        (MoveOutcome.linkCreated (create_link link_path dest),
         [WriteReq.putLink link_path dest])
  else (MoveOutcome.conflict moveConflictBody "", [])

/-- The is_object_move branch of VertigoProxyHandler.PUT
(proxy.py lines 251-268), with the X-Vertigo-Link-To header as
destination.  Identical same-path branch; on the create_link path the
source passes four arguments to the three-parameter create_link
(line 263), which raises TypeError before any link PUT is issued. -/
def PUT_move_handler (container obj dest : String) (verify : VerifyResult)
    (copyOk : Bool) : MoveOutcome × List WriteReq :=
  let link_path := joinPath container obj
  if link_path ≠ dest then
    match verify with
    | VerifyResult.unauthorized => (MoveOutcome.unauthorizedErr, [])
    | VerifyResult.notFound => (MoveOutcome.notFoundErr, [])
    | VerifyResult.ok h =>
      if h.linkTo = none ∧ h.contentType ≠ vertigo_link_marker then
        if copyOk then (MoveOutcome.typeErr, [WriteReq.copy link_path dest])
        else (MoveOutcome.copyFailed, [WriteReq.copy link_path dest])
      else (MoveOutcome.typeErr, [])
  else (MoveOutcome.conflict putConflictBody "", [])

/-- C7: a move / link request whose source path equals its destination
fails with the conflict response carrying the empty etag marker
(headers = `etag` mapped to the empty string) and performs zero writes, on
both the MOVE handler and the PUT move branch. -/
theorem move_same_path_conflict (container obj dest : String)
    (verify : VerifyResult) (copyOk : Bool) (h : joinPath container obj = dest) :
    MOVE_handler container obj dest verify copyOk
      = (MoveOutcome.conflict moveConflictBody "", []) ∧
    PUT_move_handler container obj dest verify copyOk
      = (MoveOutcome.conflict putConflictBody "", []) := by
  unfold MOVE_handler PUT_move_handler
  rw [if_neg (by simp [h]), if_neg (by simp [h])]
  exact ⟨rfl, rfl⟩

theorem move_same_path_conflict_witness :
    MOVE_handler "cont" "obj" "cont/obj" VerifyResult.notFound false
      = (MoveOutcome.conflict moveConflictBody "", []) ∧
    PUT_move_handler "cont" "obj" "cont/obj" VerifyResult.notFound false
      = (MoveOutcome.conflict putConflictBody "", []) :=
  move_same_path_conflict "cont" "obj" "cont/obj" VerifyResult.notFound false
    (by decide)

/-- The lines of the plain-text container listing the wildcard expansion
reads: the backend returns every object name in the container, one per
line with a trailing newline, restricted to the given name prefix when the
request carried prefix= in its query string; response.body.split('\n')
therefore ends with one empty string.  Model of the external storage
collaborator's container GET. -/
def listing_lines (objects : List String) (pfx : Option String) : List String :=
  (match pfx with
   | none => objects
   | some p => objects.filter (fun o => strStartsWith p o)) ++ [""]

/-- The characters before the last occurrence of c; only used when c
occurs. -/
def beforeLast (c : Char) (l : List Char) : List Char :=
  ((l.reverse.dropWhile (fun x => x != c)).drop 1).reverse

/-- The pseudo-folder search prefix self.obj.rsplit('/', 1)[0] + '/'
(proxy.py lines 115-116): everything before the last slash when the name
has one (plus the trailing slash), the whole name plus a slash
otherwise. -/
def pseudoFolderPfx (obj : String) : String :=
  if strHasChar obj '/' then String.mk (beforeLast '/' obj.data) ++ "/"
  else obj ++ "/"

/-- VertigoProxyHandler._get_object_list (proxy.py lines 96-127), as a
function of the container's objects.  For the bare wildcard the source
first appends the empty string to the result list and then lists the whole
container; for a pseudo-folder wildcard it lists with the slash-delimited
prefix; empty lines of the listing body are skipped.  The `path` parameter
of the source equals self.obj at the only call site (line 170). -/
def get_object_list (objects : List String) (obj : String) : List String :=
  let base : List String := if obj = "*" then [""] else []
  let lines : List String :=
    if obj = "*" then listing_lines objects none
    else listing_lines objects (some (pseudoFolderPfx obj))
  base ++ lines.filter (fun o => o != "")

/-- The object-list expansion of
_process_trigger_assignation_deletion_request (proxy.py lines 169-172):
wildcard object names are expanded through _get_object_list, any other
name stands for itself. -/
def expand_objects (objects : List String) (obj : String) : List String :=
  if strHasChar obj '*' then get_object_list objects obj else [obj]

/-- C8 counterexample: for the bare wildcard the expanded list is not
exactly the objects of the container; the source prepends one extra
empty-name entry (proxy.py line 112). -/
theorem expand_objects_bare_wildcard_extra_entry :
    expand_objects ["a"] "*" = ["", "a"] ∧ (["", "a"] : List String) ≠ ["a"] := by
  decide

/-- C8 amended: for a container with no empty object name, a bare wildcard
expands to one empty-name entry followed by every object in the container,
and a pseudo-folder wildcard expands to exactly the objects sharing the
slash-delimited prefix, with no additional entries. -/
theorem expand_objects_wildcard (objects : List String) (obj : String)
    (hno : "" ∉ objects) (hws : strHasChar obj '*' = true) :
    expand_objects objects obj =
      (if obj = "*" then "" :: objects
       else objects.filter (fun o => strStartsWith (pseudoFolderPfx obj) o)) := by
  have hne : ∀ a ∈ objects, (a != "") = true := by
    intro a ha
    have : a ≠ "" := fun he => hno (he ▸ ha)
    simpa using this
  unfold expand_objects get_object_list listing_lines
  rw [if_pos hws]
  by_cases hb : obj = "*"
  · rw [if_pos hb, if_pos hb, if_pos hb]
    simp only [List.filter_append]
    rw [List.filter_eq_self.mpr hne]
    simp
  · rw [if_neg hb, if_neg hb, if_neg hb]
    simp only [List.filter_append]
    rw [List.filter_eq_self.mpr (fun a ha => hne a (List.mem_of_mem_filter ha))]
    simp

theorem expand_objects_wildcard_witness :
    expand_objects ["a/x", "b"] "a/*" =
      (if "a/*" = "*" then "" :: ["a/x", "b"]
       else ["a/x", "b"].filter (fun o => strStartsWith (pseudoFolderPfx "a/*") o)) :=
  expand_objects_wildcard ["a/x", "b"] "a/*" (by decide) (by decide)

end Vertigo
